/-
Verification of the mask-compositing and temporal-stability pipeline of the
Hand-Redirection-in-AR inpainting server.

The development shallowly embeds the Python sources:
  * PC_Inpaint/rtmdet_inpainter.py          (RTMDetInpainter.inpaint)
  * PC_Inpaint/rtmdet_inpainter_stable.py   (RTMDetInpainterStable.inpaint)
  * RTMDet_Realtime/tcp_inpaint_server_rtmdet_only.py (handle_client body)
  * PC_Inpaint/Quest-PC_Server.py           (handle_client body)

Modelling conventions:
  * numpy HxW boolean masks are structures carrying their dimensions and a
    total pixel function; pixels outside the carried bounds are irrelevant.
  * numpy HxWxC images likewise carry h, w, c and a pixel function.
  * cv2.resize with INTER_NEAREST on a mask is modelled as floor-rule nearest
    sampling (destination pixel (y,x) reads source (y*srcH/dstH, x*srcW/dstW)).
  * cv2.getStructuringElement and cv2.inpaint are external collaborators and
    appear as parameters (a kernel generator and a fill operator).
  * cv2.connectedComponentsWithStats at connectivity 8 is modelled by a
    fuel-bounded breadth-first closure over the foreground pixel set, proved
    below to coincide with reflexive-transitive 8-neighbour reachability.
  * detection scores (Python floats compared against a threshold) are
    modelled as rationals; only order comparisons are performed on them.
  * Python exceptions are modelled with Except; the detector invocation is an
    Except-valued parameter, matching the fact that DetInferencer may raise.
-/
import Mathlib

namespace HandRedir

/-- A binary mask: height, width and a per-pixel boolean function, modelling a
numpy HxW bool (or 0/255) array. -/
structure Mask where
  h : Nat
  w : Nat
  pix : Nat → Nat → Bool

/-- A dense colour frame: height, width, channel count and pixel function,
modelling a numpy HxWxC uint8 array. -/
structure Frame where
  h : Nat
  w : Nat
  c : Nat
  pix : Nat → Nat → Nat → Nat

/-- In-bounds foreground pixel list of a mask, in row-major order; models
np.nonzero on a 2-D array. -/
def fgL (m : Mask) : List (Nat × Nat) :=
  (List.range m.h).flatMap fun y =>
    (List.range m.w).filterMap fun x =>
      if m.pix y x then some (y, x) else none

/-- In-bounds foreground pixel set of a mask. -/
def fgSet (m : Mask) : Finset (Nat × Nat) :=
  (Finset.range m.h ×ˢ Finset.range m.w).filter fun p => m.pix p.1 p.2

/-- Models numpy mask.any(): some in-bounds pixel is foreground. -/
def maskAny (m : Mask) : Bool :=
  !(fgL m).isEmpty

/-- Minimum row index of the foreground (np ys.min()); seeded with m.h, which
exceeds every in-bounds row index, so the seed never wins on a non-empty mask. -/
def yMin (m : Mask) : Nat :=
  (fgL m).foldl (fun a p => min a p.1) m.h

/-- Maximum row index of the foreground (np ys.max()). -/
def yMax (m : Mask) : Nat :=
  (fgL m).foldl (fun a p => max a p.1) 0

/-- Minimum column index of the foreground (np xs.min()). -/
def xMin (m : Mask) : Nat :=
  (fgL m).foldl (fun a p => min a p.2) m.w

/-- Maximum column index of the foreground (np xs.max()). -/
def xMax (m : Mask) : Nat :=
  (fgL m).foldl (fun a p => max a p.2) 0

/-- Pixel-wise OR of two masks (np.logical_or); numpy requires equal shapes,
the dimensions of the first operand are carried. -/
def orM (a b : Mask) : Mask :=
  ⟨a.h, a.w, fun y x => a.pix y x || b.pix y x⟩

/-- cv2.resize with INTER_NEAREST on a boolean mask, floor sampling rule. -/
def resizeMask (m : Mask) (newW newH : Nat) : Mask :=
  ⟨newH, newW, fun y x => m.pix (y * m.h / newH) (x * m.w / newW)⟩

/-- Python slice crop mask[y0:y1ex, x0:x1ex] (end-exclusive). -/
def cropM (m : Mask) (y0 y1ex x0 x1ex : Nat) : Mask :=
  ⟨y1ex - y0, x1ex - x0, fun y x => m.pix (y0 + y) (x0 + x)⟩

/-- Python slice crop frame[y0:y1ex, x0:x1ex] (end-exclusive). -/
def cropF (f : Frame) (y0 y1ex x0 x1ex : Nat) : Frame :=
  ⟨y1ex - y0, x1ex - x0, f.c, fun y x ch => f.pix (y0 + y) (x0 + x) ch⟩

/-- Embed a small mask into a zero HxW canvas at offset (y0,x0); models
full = np.zeros(..); full[y0:y0+ih, x0:x0+iw] = inner. -/
def stitchM (bigH bigW y0 x0 : Nat) (inner : Mask) : Mask :=
  ⟨bigH, bigW, fun y x =>
    decide (y0 ≤ y ∧ y < y0 + inner.h ∧ x0 ≤ x ∧ x < x0 + inner.w) &&
      inner.pix (y - y0) (x - x0)⟩

/-- Slice assignment output[y0:y0+src.h, x0:x0+src.w] = src on a frame. -/
def writeROI (dst : Frame) (y0 x0 : Nat) (src : Frame) : Frame :=
  ⟨dst.h, dst.w, dst.c, fun y x ch =>
    if y0 ≤ y ∧ y < y0 + src.h ∧ x0 ≤ x ∧ x < x0 + src.w then
      src.pix (y - y0) (x - x0) ch
    else dst.pix y x ch⟩

/-- cv2.dilate with a kernel given as integer offsets from the centre anchor;
out-of-bounds samples contribute background (cv2 default border for dilate). -/
def dilateK (K : List (Int × Int)) (m : Mask) : Mask :=
  ⟨m.h, m.w, fun y x => K.any fun d =>
    let sy : Int := (y : Int) + d.1
    let sx : Int := (x : Int) + d.2
    decide (0 ≤ sy ∧ sy < (m.h : Int) ∧ 0 ≤ sx ∧ sx < (m.w : Int)) &&
      m.pix sy.toNat sx.toNat⟩

/-- cv2.erode with the same kernel convention; out-of-bounds samples
contribute foreground (cv2 default border for erode). -/
def erodeK (K : List (Int × Int)) (m : Mask) : Mask :=
  ⟨m.h, m.w, fun y x => K.all fun d =>
    let sy : Int := (y : Int) + d.1
    let sx : Int := (x : Int) + d.2
    !(decide (0 ≤ sy ∧ sy < (m.h : Int) ∧ 0 ≤ sx ∧ sx < (m.w : Int))) ||
      m.pix sy.toNat sx.toNat⟩

/-- cv2.morphologyEx MORPH_CLOSE with one iteration: dilate then erode. -/
def closeK (K : List (Int × Int)) (m : Mask) : Mask :=
  erodeK K (dilateK K m)

/- Basic lemmas about the primitives. -/

theorem mem_fgL {m : Mask} {p : Nat × Nat} :
    p ∈ fgL m ↔ p.1 < m.h ∧ p.2 < m.w ∧ m.pix p.1 p.2 = true := by
  obtain ⟨y, x⟩ := p
  simp only [fgL, List.mem_flatMap, List.mem_filterMap, List.mem_range]
  constructor
  · rintro ⟨y', hy', x', hx', hval⟩
    by_cases hpix : m.pix y' x'
    · simp [hpix] at hval
      obtain ⟨h1, h2⟩ := hval
      subst h1; subst h2
      exact ⟨hy', hx', hpix⟩
    · simp [hpix] at hval
  · rintro ⟨hy, hx, hpix⟩
    exact ⟨y, hy, x, hx, by simp [hpix]⟩

theorem mem_fgSet {m : Mask} {p : Nat × Nat} :
    p ∈ fgSet m ↔ p.1 < m.h ∧ p.2 < m.w ∧ m.pix p.1 p.2 = true := by
  obtain ⟨y, x⟩ := p
  simp [fgSet, Finset.mem_filter, Finset.mem_product, and_assoc]

theorem maskAny_iff {m : Mask} :
    maskAny m = true ↔ ∃ p, p ∈ fgL m := by
  rw [maskAny]
  cases hL : fgL m with
  | nil => simp
  | cons a t =>
    simp only [List.isEmpty_cons, Bool.not_false, true_iff]
    exact ⟨a, List.mem_cons_self a t⟩

theorem maskAny_false_iff {m : Mask} :
    maskAny m = false ↔ ∀ y x, y < m.h → x < m.w → m.pix y x = false := by
  constructor
  · intro hA y x hy hx
    by_contra hpix
    have : maskAny m = true := by
      rw [maskAny_iff]
      exact ⟨(y, x), mem_fgL.mpr ⟨hy, hx, by simpa using hpix⟩⟩
    rw [hA] at this; exact Bool.false_ne_true this
  · intro hall
    cases hA : maskAny m
    · rfl
    · rw [maskAny_iff] at hA
      obtain ⟨p, hp⟩ := hA
      rw [mem_fgL] at hp
      have := hall p.1 p.2 hp.1 hp.2.1
      rw [hp.2.2] at this; exact absurd this (by simp)

/-- The seeded foldl-min never exceeds its seed. -/
theorem foldl_min_le_init {α : Type} (f : α → Nat) :
    ∀ (l : List α) (a : Nat), l.foldl (fun acc p => min acc (f p)) a ≤ a := by
  intro l
  induction l with
  | nil => intro a; exact le_rfl
  | cons b t ih =>
    intro a
    calc (b :: t).foldl (fun acc p => min acc (f p)) a
        = t.foldl (fun acc p => min acc (f p)) (min a (f b)) := rfl
      _ ≤ min a (f b) := ih (min a (f b))
      _ ≤ a := min_le_left _ _

/-- The seeded foldl-min is a lower bound for every element contribution. -/
theorem foldl_min_le {α : Type} (f : α → Nat) :
    ∀ (l : List α) (a : Nat) (x : α), x ∈ l →
      l.foldl (fun acc p => min acc (f p)) a ≤ f x := by
  intro l
  induction l with
  | nil => intro a x hx; exact absurd hx (List.not_mem_nil x)
  | cons b t ih =>
    intro a x hx
    rcases List.mem_cons.mp hx with h | h
    · subst h
      calc (x :: t).foldl (fun acc p => min acc (f p)) a
          = t.foldl (fun acc p => min acc (f p)) (min a (f x)) := rfl
        _ ≤ min a (f x) := foldl_min_le_init f t _
        _ ≤ f x := min_le_right _ _
    · exact ih (min a (f b)) x h

/-- The seeded foldl-max is at least its seed. -/
theorem le_foldl_max_init {α : Type} (f : α → Nat) :
    ∀ (l : List α) (a : Nat), a ≤ l.foldl (fun acc p => max acc (f p)) a := by
  intro l
  induction l with
  | nil => intro a; exact le_rfl
  | cons b t ih =>
    intro a
    calc a ≤ max a (f b) := le_max_left _ _
      _ ≤ t.foldl (fun acc p => max acc (f p)) (max a (f b)) := ih (max a (f b))
      _ = (b :: t).foldl (fun acc p => max acc (f p)) a := rfl

/-- The seeded foldl-max is an upper bound for every element contribution. -/
theorem le_foldl_max {α : Type} (f : α → Nat) :
    ∀ (l : List α) (a : Nat) (x : α), x ∈ l →
      f x ≤ l.foldl (fun acc p => max acc (f p)) a := by
  intro l
  induction l with
  | nil => intro a x hx; exact absurd hx (List.not_mem_nil x)
  | cons b t ih =>
    intro a x hx
    rcases List.mem_cons.mp hx with h | h
    · subst h
      calc f x ≤ max a (f x) := le_max_right _ _
        _ ≤ t.foldl (fun acc p => max acc (f p)) (max a (f x)) := le_foldl_max_init f t _
        _ = (x :: t).foldl (fun acc p => max acc (f p)) a := rfl
    · exact ih (max a (f b)) x h

theorem yMin_le {m : Mask} {p : Nat × Nat} (hp : p ∈ fgL m) : yMin m ≤ p.1 :=
  foldl_min_le (fun q => q.1) (fgL m) m.h p hp

theorem le_yMax {m : Mask} {p : Nat × Nat} (hp : p ∈ fgL m) : p.1 ≤ yMax m :=
  le_foldl_max (fun q => q.1) (fgL m) 0 p hp

theorem xMin_le {m : Mask} {p : Nat × Nat} (hp : p ∈ fgL m) : xMin m ≤ p.2 :=
  foldl_min_le (fun q => q.2) (fgL m) m.w p hp

theorem le_xMax {m : Mask} {p : Nat × Nat} (hp : p ∈ fgL m) : p.2 ≤ xMax m :=
  le_foldl_max (fun q => q.2) (fgL m) 0 p hp

/- Connected components at 8-connectivity.  cv2.connectedComponentsWithStats
is modelled by a fuel-bounded breadth-first closure over foreground pixels;
the closure is proved to capture exactly reflexive-transitive 8-neighbour
reachability. -/

/-- Two distinct grid cells are 8-neighbours when both coordinates differ by
at most one. -/
def nbr8 (p q : Nat × Nat) : Prop :=
  p ≠ q ∧ Nat.dist p.1 q.1 ≤ 1 ∧ Nat.dist p.2 q.2 ≤ 1

instance (p q : Nat × Nat) : Decidable (nbr8 p q) := by
  unfold nbr8; infer_instance

/-- One adjacency step inside the foreground of a mask. -/
def Adj (m : Mask) (p q : Nat × Nat) : Prop :=
  p ∈ fgSet m ∧ q ∈ fgSet m ∧ nbr8 p q

/-- Reachability inside the foreground: membership in the same 8-connected
component. -/
def Reach (m : Mask) (p q : Nat × Nat) : Prop :=
  Relation.ReflTransGen (Adj m) p q

/-- One breadth-first expansion round over the foreground pixel set. -/
def expandC (fg cur : Finset (Nat × Nat)) : Finset (Nat × Nat) :=
  fg.filter fun q => q ∈ cur ∨ ∃ p ∈ cur, nbr8 p q

/-- Fuel-bounded iteration of the expansion round with an early exit on a
fixed point. -/
def compIter (fg : Finset (Nat × Nat)) : Nat → Finset (Nat × Nat) → Finset (Nat × Nat)
  | 0, cur => cur
  | n + 1, cur =>
    if expandC fg cur = cur then cur else compIter fg n (expandC fg cur)

/-- The 8-connected component of a pixel: breadth-first closure of the
singleton seed within the foreground, with enough fuel to stabilise. -/
def comp (m : Mask) (p : Nat × Nat) : Finset (Nat × Nat) :=
  compIter (fgSet m) (fgSet m).card {p}

theorem expandC_subset_fg {fg cur : Finset (Nat × Nat)} : expandC fg cur ⊆ fg :=
  Finset.filter_subset _ _

theorem subset_expandC {fg cur : Finset (Nat × Nat)} (h : cur ⊆ fg) :
    cur ⊆ expandC fg cur := by
  intro q hq
  exact Finset.mem_filter.mpr ⟨h hq, Or.inl hq⟩

theorem expandC_fix_closed {fg S : Finset (Nat × Nat)}
    (hfix : expandC fg S = S) {a b : Nat × Nat}
    (ha : a ∈ S) (hb : b ∈ fg) (hn : nbr8 a b) : b ∈ S := by
  rw [← hfix]
  exact Finset.mem_filter.mpr ⟨hb, Or.inr ⟨a, ha, hn⟩⟩

theorem compIter_subset_fg {fg : Finset (Nat × Nat)} :
    ∀ (n : Nat) (cur : Finset (Nat × Nat)), cur ⊆ fg → compIter fg n cur ⊆ fg := by
  intro n
  induction n with
  | zero => intro cur h; exact h
  | succ k ih =>
    intro cur h
    rw [compIter]
    by_cases hfix : expandC fg cur = cur
    · simp only [hfix, if_pos rfl]; exact h
    · rw [if_neg hfix]
      exact ih (expandC fg cur) expandC_subset_fg

theorem subset_compIter {fg : Finset (Nat × Nat)} :
    ∀ (n : Nat) (cur : Finset (Nat × Nat)), cur ⊆ fg → cur ⊆ compIter fg n cur := by
  intro n
  induction n with
  | zero => intro cur _; exact Finset.Subset.refl cur
  | succ k ih =>
    intro cur h
    rw [compIter]
    by_cases hfix : expandC fg cur = cur
    · rw [if_pos hfix]
    · rw [if_neg hfix]
      exact (subset_expandC h).trans (ih (expandC fg cur) expandC_subset_fg)

theorem compIter_fixpoint {fg : Finset (Nat × Nat)} :
    ∀ (n : Nat) (cur : Finset (Nat × Nat)), cur ⊆ fg → fg.card ≤ n + cur.card →
      expandC fg (compIter fg n cur) = compIter fg n cur := by
  intro n
  induction n with
  | zero =>
    intro cur hsub hcard
    have heq : cur = fg := Finset.eq_of_subset_of_card_le hsub (by omega)
    subst heq
    rw [compIter]
    apply Finset.Subset.antisymm expandC_subset_fg (subset_expandC (Finset.Subset.refl cur))
  | succ k ih =>
    intro cur hsub hcard
    rw [compIter]
    by_cases hfix : expandC fg cur = cur
    · rw [if_pos hfix, hfix]
    · rw [if_neg hfix]
      have hss : cur ⊂ expandC fg cur :=
        Finset.ssubset_iff_subset_ne.mpr ⟨subset_expandC hsub, fun h => hfix h.symm⟩
      have hlt : cur.card < (expandC fg cur).card := Finset.card_lt_card hss
      exact ih (expandC fg cur) expandC_subset_fg (by omega)

theorem compIter_sound {m : Mask} {p : Nat × Nat} :
    ∀ (n : Nat) (cur : Finset (Nat × Nat)), cur ⊆ fgSet m →
      (∀ q ∈ cur, Reach m p q) →
      ∀ q ∈ compIter (fgSet m) n cur, Reach m p q := by
  intro n
  induction n with
  | zero => intro cur _ hreach q hq; exact hreach q hq
  | succ k ih =>
    intro cur hsub hreach q hq
    rw [compIter] at hq
    by_cases hfix : expandC (fgSet m) cur = cur
    · rw [if_pos hfix] at hq; exact hreach q hq
    · rw [if_neg hfix] at hq
      refine ih (expandC (fgSet m) cur) expandC_subset_fg ?_ q hq
      intro r hr
      obtain ⟨hrfg, hcase⟩ := Finset.mem_filter.mp hr
      rcases hcase with h | ⟨s, hs, hn⟩
      · exact hreach r h
      · exact Relation.ReflTransGen.tail (hreach s hs) ⟨hsub hs, hrfg, hn⟩

/-- The breadth-first component of a foreground pixel is exactly the set of
pixels 8-reachable from it inside the foreground. -/
theorem mem_comp_iff {m : Mask} {p q : Nat × Nat} (hp : p ∈ fgSet m) :
    q ∈ comp m p ↔ Reach m p q := by
  have hseed : ({p} : Finset (Nat × Nat)) ⊆ fgSet m := by
    intro r hr; rw [Finset.mem_singleton] at hr; subst hr; exact hp
  constructor
  · intro hq
    refine compIter_sound (fgSet m).card {p} hseed ?_ q hq
    intro r hr
    rw [Finset.mem_singleton] at hr; subst hr
    exact Relation.ReflTransGen.refl
  · intro hreach
    have hfix : expandC (fgSet m) (comp m p) = comp m p := by
      apply compIter_fixpoint (fgSet m).card {p} hseed
      simp
    have hpmem : p ∈ comp m p :=
      subset_compIter (fgSet m).card {p} hseed (Finset.mem_singleton_self p)
    induction hreach with
    | refl => exact hpmem
    | tail _ hadj ih => exact expandC_fix_closed hfix ih hadj.2.1 hadj.2.2

/-- RTMDetInpainterStable._filter_small_components: connected-component
labelling at connectivity 8, keeping the pixels of components whose area is
at least min_area.  Mirrors the source guards: min_area ≤ 1 and empty-array
inputs return the mask unchanged, and so does a mask with no foreground
(cv2 then reports only the background label, num ≤ 1). -/
def filterSmallComponents (m : Mask) (minArea : Int) : Mask :=
  if minArea ≤ 1 then m
  else if m.h = 0 ∨ m.w = 0 then m
  else if fgSet m = ∅ then m
  else ⟨m.h, m.w, fun y x =>
    decide ((y, x) ∈ fgSet m) && decide (minArea ≤ ((comp m (y, x)).card : Int))⟩

theorem comp_card_pos {m : Mask} {p : Nat × Nat} (hp : p ∈ fgSet m) :
    0 < (comp m p).card := by
  have : p ∈ comp m p := (mem_comp_iff hp).mpr Relation.ReflTransGen.refl
  exact Finset.card_pos.mpr ⟨p, this⟩

/-- For a foreground pixel, the reachable set coincides with the finite
breadth-first component, hence has its cardinality. -/
theorem reachSet_ncard {m : Mask} {p : Nat × Nat} (hp : p ∈ fgSet m) :
    Set.ncard {q | Reach m p q} = (comp m p).card := by
  have hset : {q | Reach m p q} = ↑(comp m p) := by
    ext q
    simp only [Set.mem_setOf_eq, Finset.coe_insert, Finset.mem_coe]
    exact (mem_comp_iff hp).symm
  rw [hset, Set.ncard_coe_Finset]

/-- Characterisation of the small-component filter on in-bounds pixels:
a pixel survives exactly when it is foreground and its 8-connected
component has at least min_area pixels. -/
theorem filterSmall_char {m : Mask} {a : Int} {y x : Nat}
    (hy : y < m.h) (hx : x < m.w) :
    (filterSmallComponents m a).pix y x = true ↔
      (m.pix y x = true ∧ a ≤ ((Set.ncard {q | Reach m (y, x) q} : Nat) : Int)) := by
  by_cases hpix : m.pix y x = true
  · have hfg : (y, x) ∈ fgSet m := mem_fgSet.mpr ⟨hy, hx, hpix⟩
    rw [reachSet_ncard hfg]
    unfold filterSmallComponents
    by_cases h1 : a ≤ 1
    · rw [if_pos h1]
      have hcard : (1 : Int) ≤ ((comp m (y, x)).card : Int) := by
        exact_mod_cast comp_card_pos hfg
      constructor
      · intro h; exact ⟨h, le_trans h1 hcard⟩
      · intro h; exact h.1
    · rw [if_neg h1, if_neg (by omega), if_neg (by
        intro hempty
        rw [hempty] at hfg
        exact absurd hfg (Finset.not_mem_empty _))]
      simp only [Bool.and_eq_true, decide_eq_true_eq]
      constructor
      · intro h; exact ⟨hpix, h.2⟩
      · intro h; exact ⟨hfg, h.2⟩
  · have hpixf : m.pix y x = false := by
      cases h : m.pix y x
      · rfl
      · exact absurd h hpix
    constructor
    · intro h
      exfalso
      unfold filterSmallComponents at h
      by_cases h1 : a ≤ 1
      · rw [if_pos h1] at h; rw [h] at hpixf; exact absurd hpixf (by simp)
      · rw [if_neg h1, if_neg (by omega)] at h
        by_cases hempty : fgSet m = ∅
        · rw [if_pos hempty] at h; rw [h] at hpixf; exact absurd hpixf (by simp)
        · rw [if_neg hempty] at h
          simp only [Bool.and_eq_true, decide_eq_true_eq] at h
          have := (mem_fgSet.mp h.1).2.2
          rw [this] at hpixf; exact absurd hpixf (by simp)
    · intro h
      rw [h.1] at hpixf; exact absurd hpixf (by simp)

/- Data model of the pipeline inputs and configuration. -/

/-- One prediction bundle, result["predictions"][0]: per-instance mask
objects (None allowed), integer label ids, and an optional score list. -/
structure Preds where
  masks : List (Option Mask)
  labels : List Int
  scores : Option (List ℚ)

/-- RTMDetInpainter configuration fields consumed by inpaint. -/
structure BConfig where
  targetLabels : List String
  classNames : List String
  scoreThreshold : ℚ
  inferenceSize : Option (Nat × Nat)

/-- RTMDetInpainterStable extra configuration; roiMargin is stored already
clamped, mirroring self.roi_margin = max(0, int(roi_margin)). -/
structure SConfig extends BConfig where
  maskDilate : Int
  maskClose : Int
  minArea : Int
  keepFrames : Int
  roiMargin : Nat

/-- External collaborators: the fill operator (cv2.inpaint with the
configured radius and flags) and the structuring-element generator
(cv2.getStructuringElement MORPH_ELLIPSE of size 2k+1, as centre-anchored
integer offsets). -/
structure Collab where
  fill : Frame → Mask → Frame
  kernelOf : Nat → List (Int × Int)

/-- Byte-stream codec (cv2.imdecode / cv2.imencode with the configured JPEG
quality); both directions may fail. -/
structure Codec where
  decodeI : List Nat → Option Frame
  encodeI : Frame → Option (List Nat)

/-- Python exceptions surfaced by the pipelines. -/
inductive PipeErr where
  | valueError : PipeErr
  | inferError : PipeErr

/-- RTMDetInpainter._label_name. -/
def labelName (classNames : List String) (lid : Int) : String :=
  if 0 ≤ lid ∧ lid < (classNames.length : Int) then classNames.getD lid.toNat ""
  else toString lid

/-- RTMDetInpainter._decode_mask: None decodes to a size-0 array. -/
def decodeMask (mo : Option Mask) : Mask :=
  match mo with
  | none => ⟨0, 0, fun _ _ => false⟩
  | some d => d

/-- The score-based skip test of _build_combined_mask:
scores is not None and idx < len(scores) and scores[idx] < threshold. -/
def scoreSkip (scores : Option (List ℚ)) (idx : Nat) (thr : ℚ) : Bool :=
  match scores with
  | some s => decide (idx < s.length) && decide (s.getD idx 0 < thr)
  | none => false

/-- RTMDetInpainter._build_combined_mask: union the masks of detections that
survive the label filter and the score threshold, resized to the target
shape when necessary. -/
def buildCombinedMask (cfg : BConfig) (preds : Preds) (tH tW : Nat) : Mask :=
  let empty : Mask := ⟨tH, tW, fun _ _ => false⟩
  if preds.masks.isEmpty then empty
  else
    (List.range preds.labels.length).foldl (fun comb idx =>
      let name := labelName cfg.classNames (preds.labels.getD idx 0)
      if cfg.targetLabels ≠ [] ∧ name ∉ cfg.targetLabels then comb
      else if scoreSkip preds.scores idx cfg.scoreThreshold then comb
      else
        let mk := decodeMask (preds.masks.getD idx none)
        if mk.h * mk.w = 0 then comb
        else
          let mk2 := if (mk.h, mk.w) ≠ (tH, tW) then resizeMask mk tW tH else mk
          orM comb mk2) empty

/- The Temporal Stabilizer. -/

/-- Per-session stabiliser state: RTMDetInpainterStable._prev_mask and
_prev_ttl (the latter never goes below zero in the source, hence a Nat). -/
structure StabState where
  prev : Option Mask
  ttl : Nat

/-- The temporal-persistence block of RTMDetInpainterStable.inpaint, in the
source's branch order: an empty detection while a remembered mask with
positive persistence exists substitutes the remembered mask and decrements;
a non-empty detection is remembered with persistence max(0, keep_frames). -/
def stabStep (keepFrames : Int) (st : StabState) (m : Mask) : Mask × StabState :=
  if maskAny m = false ∧ st.prev.isSome ∧ 0 < st.ttl then
    (st.prev.getD m, ⟨st.prev, st.ttl - 1⟩)
  else if maskAny m = true then
    (m, ⟨some m, (max 0 keepFrames).toNat⟩)
  else (m, st)

/- The stable pipeline (RTMDetInpainterStable.inpaint). -/

/-- Result of one stable-pipeline invocation: the repaired frame, the
stabiliser state after the call, the last_debug fields, the arguments of
the fill-operator call when one happened, and the value of the caller's
input frame at return time (the source never writes into image_bgr). -/
structure SOut where
  repaired : Frame
  state : StabState
  detMaskDbg : Mask
  finalMaskDbg : Mask
  inpaintMaskDbg : Mask
  bboxDbg : Nat × Nat × Nat × Nat
  fillCall : Option (Frame × Mask)
  inputAfter : Frame

/-- ROI bound computation of the stable pipeline (lines 117-122): the
foreground bounding box expanded by the margin and clamped to the image
extent.  Nat subtraction models Python max(v - margin, 0). -/
def roiBounds (margin h w : Nat) (m : Mask) : Nat × Nat × Nat × Nat :=
  (yMin m - margin, min (yMax m + margin) (h - 1),
   xMin m - margin, min (xMax m + margin) (w - 1))

/-- The final fill stage of RTMDetInpainterStable.inpaint (lines 112-133):
empty mask copies the input, a degenerate expanded box fills the whole frame
with the whole mask, otherwise the fill runs on the cropped ROI and the
result is written back into a copy of the input.  Returns the repaired
frame, the bbox debug value, and the fill-call arguments if any. -/
def stableROIFill (cb : Collab) (margin : Nat) (img : Frame) (mask : Mask) :
    Frame × (Nat × Nat × Nat × Nat) × Option (Frame × Mask) :=
  if maskAny mask = false then
    (img, (0, 0, 0, 0), none)
  else
    let b := roiBounds margin img.h img.w mask
    let y0 := b.1
    let y1 := b.2.1
    let x0 := b.2.2.1
    let x1 := b.2.2.2
    if y1 ≤ y0 ∨ x1 ≤ x0 then
      (cb.fill img mask, (0, img.h - 1, 0, img.w - 1), some (img, mask))
    else
      let roiImg := cropF img y0 (y1 + 1) x0 (x1 + 1)
      let roiMask := cropM mask y0 (y1 + 1) x0 (x1 + 1)
      let roiResult := cb.fill roiImg roiMask
      (writeROI img y0 x0 roiResult, (y0, y1, x0, x1), some (roiImg, roiMask))

/-- The working-resolution choice of the stable pipeline (lines 68-74):
resize to the configured inference size only when it is set and differs
from the frame size; returns (infer_w, infer_h). -/
def stableInferDims (cfg : SConfig) (h w : Nat) : Nat × Nat :=
  match cfg.inferenceSize with
  | some (iw, ih) => if (w, h) ≠ (iw, ih) then (iw, ih) else (w, h)
  | none => (w, h)

/-- The full-frame detection mask of the stable pipeline (lines 77-85):
assemble the combined mask at inference resolution (zeros on a falsy or
empty result), then resize back to the frame when necessary. -/
def stableDetMask (cfg : SConfig) (res : Option Preds) (h w : Nat) : Mask :=
  let dims := stableInferDims cfg h w
  let iw := dims.1
  let ih := dims.2
  let det1 : Mask := match res with
    | some preds => buildCombinedMask cfg.toBConfig preds ih iw
    | none => ⟨ih, iw, fun _ _ => false⟩
  if (ih, iw) ≠ (h, w) then resizeMask det1 w h else det1

/-- The small-component knob of the stable pipeline (lines 97-99): active
only when min_area > 1. -/
def filterPart (cfg : SConfig) (m : Mask) : Mask :=
  if 1 < cfg.minArea then filterSmallComponents m cfg.minArea else m

/-- The Mask Postprocessor of the stable pipeline (lines 97-110):
small-component removal, then close when mask_close > 0, then dilate when
mask_dilate > 0, both with the elliptical kernel of radius
max(mask_close, mask_dilate). -/
def postprocessMask (cfg : SConfig) (cb : Collab) (m : Mask) : Mask :=
  let mask2 := filterPart cfg m
  let k := max cfg.maskClose cfg.maskDilate
  if 0 < k then
    let K := cb.kernelOf k.toNat
    let mA := if 0 < cfg.maskClose then closeK K mask2 else mask2
    if 0 < cfg.maskDilate then dilateK K mA else mA
  else mask2

/-- The body of RTMDetInpainterStable.inpaint after the input guard and a
non-raising detector invocation. -/
def stableRun (cfg : SConfig) (cb : Collab) (res : Option Preds)
    (st : StabState) (img : Frame) : SOut :=
  let det2 := stableDetMask cfg res img.h img.w
  let ms := stabStep cfg.keepFrames st det2
  let mask3 := postprocessMask cfg cb ms.1
  let tail := stableROIFill cb cfg.roiMargin img mask3
  ⟨tail.1, ms.2, det2, mask3, mask3, tail.2.1, tail.2.2, img⟩

/-- RTMDetInpainterStable.inpaint.  The detector invocation is a parameter
(Except models a raising _run_inference; the Option models a falsy result or
an empty predictions list).  prior_mask is accepted, as in the source
signature, and never used by the body. -/
def stableInpaint (cfg : SConfig) (cb : Collab) (detRes : Except Unit (Option Preds))
    (st : StabState) (img : Frame) (priorMask : Option Mask) : Except PipeErr SOut :=
  if img.c ≠ 3 then .error .valueError
  else
    match detRes with
    | .error _ => .error .inferError
    | .ok res => .ok (stableRun cfg cb res st img)

/- The base pipeline (RTMDetInpainter.inpaint). -/

/-- Result of one base-pipeline invocation. -/
structure BOut where
  repaired : Frame
  fillCall : Option (Frame × Mask)
  inputAfter : Frame

/-- Outcome of the hint-mask / ROI-crop preamble of RTMDetInpainter.inpaint
(lines 75-95): the possibly resized hint (None when absent or empty), the
crop bounds when a crop was taken (end-exclusive, as stored in the source),
the working image, and the hint restricted to the crop. -/
structure PriorStage where
  prior : Option Mask
  cropBounds : Option (Nat × Nat × Nat × Nat)
  working : Frame
  priorRoi : Option Mask

/-- The hint-ROI margin of RTMDetInpainter.inpaint (line 85):
max(min(w, h) // 20, 16). -/
def bMargin (H W : Nat) : Nat := max (min W H / 20) 16

/-- The hint-mask preamble of RTMDetInpainter.inpaint: resize the hint to
the frame shape if needed; when it is non-empty, expand its bounding box by
margin max(min(w,h)//20, 16) and crop frame and hint to it, unless the
expanded box is degenerate (extent ≤ 2 in either axis); an empty hint is
discarded. -/
def basePriorStage (img : Frame) (priorIn : Option Mask) : PriorStage :=
  match priorIn with
  | none => ⟨none, none, img, none⟩
  | some pm0 =>
    let H := img.h
    let W := img.w
    let pm := if (pm0.h, pm0.w) ≠ (H, W) then resizeMask pm0 W H else pm0
    if maskAny pm then
      let margin := bMargin H W
      let y0 := yMin pm - margin
      let y1 := min (yMax pm + margin) (H - 1)
      let x0 := xMin pm - margin
      let x1 := min (xMax pm + margin) (W - 1)
      if 2 < y1 - y0 ∧ 2 < x1 - x0 then
        ⟨some pm, some (y0, y1 + 1, x0, x1 + 1),
         cropF img y0 (y1 + 1) x0 (x1 + 1),
         some (cropM pm y0 (y1 + 1) x0 (x1 + 1))⟩
      else ⟨some pm, none, img, none⟩
    else ⟨none, none, img, none⟩

/-- The inference-resolution choice of RTMDetInpainter.inpaint (lines
97-102): the configured size is compared against the ORIGINAL frame size
even when a crop was taken; returns (infer_w, infer_h). -/
def baseInferDims (cfg : BConfig) (H W : Nat) (ps : PriorStage) : Nat × Nat :=
  match cfg.inferenceSize with
  | some (iw0, ih0) => if (W, H) ≠ (iw0, ih0) then (iw0, ih0) else (ps.working.w, ps.working.h)
  | none => (ps.working.w, ps.working.h)

/-- Resize the combined mask back to the working resolution when inference
ran at a different one (lines 121-126). -/
def resizeToWorking (ps : PriorStage) (ih iw : Nat) (c : Mask) : Mask :=
  if (ih, iw) ≠ (ps.working.h, ps.working.w)
  then resizeMask c ps.working.w ps.working.h else c

/-- The mask-assembly tail of RTMDetInpainter.inpaint (lines 121-153):
resize the combined mask to the working resolution, union with the hint,
stitch back to full-frame coordinates after a crop, and finally resize to
the hint's shape when they still disagree. -/
def baseMaskAssembly (H W ih iw : Nat) (ps : PriorStage) (combined : Mask) : Mask :=
  let combined2 := resizeToWorking ps ih iw combined
  let union1 :=
    match ps.priorRoi with
    | some pr => orM combined2 pr
    | none =>
      match ps.prior with
      | some p =>
        match ps.cropBounds with
        | some (y0, _, x0, _) => orM (stitchM H W y0 x0 combined2) p
        | none => p
      | none => combined2
  let union2 :=
    match ps.cropBounds with
    | some (y0, _, x0, _) =>
      if (union1.h, union1.w) ≠ (H, W) then stitchM H W y0 x0 union1 else union1
    | none => union1
  match ps.prior with
  | some p =>
    if (union2.h, union2.w) ≠ (p.h, p.w) then resizeMask union2 p.w p.h else union2
  | none => union2

/-- The body of RTMDetInpainter.inpaint after the input guard and a
non-raising detector invocation. -/
def baseRun (cfg : BConfig) (cb : Collab) (res : Option Preds)
    (img : Frame) (priorIn : Option Mask) : BOut :=
  let H := img.h
  let W := img.w
  let ps := basePriorStage img priorIn
  let dims := baseInferDims cfg H W ps
  let iw := dims.1
  let ih := dims.2
  match res with
  | none =>
    match ps.prior with
    | some p => ⟨cb.fill img p, some (img, p), img⟩
    | none => ⟨img, none, img⟩
  | some preds =>
    let combined := buildCombinedMask cfg preds ih iw
    if maskAny combined = false then
      match ps.prior with
      | some p => ⟨cb.fill img p, some (img, p), img⟩
      | none => ⟨img, none, img⟩
    else
      let union3 := baseMaskAssembly H W ih iw ps combined
      ⟨cb.fill img union3, some (img, union3), img⟩

/-- RTMDetInpainter.inpaint: hint preamble, inference at the configured or
native resolution, mask assembly, fall-backs for a falsy result or an empty
combined mask, union with the hint, stitching back to full-frame
coordinates, and the fill invocation. -/
def baseInpaint (cfg : BConfig) (cb : Collab) (detRes : Except Unit (Option Preds))
    (img : Frame) (priorIn : Option Mask) : Except PipeErr BOut :=
  if img.c ≠ 3 then .error .valueError
  else
    match detRes with
    | .error _ => .error .inferError
    | .ok res => .ok (baseRun cfg cb res img priorIn)

/- The session handlers. -/

/-- Outcome of one loop iteration of a session handler: close the session,
or send one length-prefixed reply and continue with the given stabiliser
state. -/
inductive StepResult where
  | close : StepResult
  | reply : Nat → List Nat → StabState → StepResult

/-- Outcome of one loop iteration of the Quest-PC handler (stateless). -/
inductive QStepResult where
  | close : QStepResult
  | reply : Nat → List Nat → QStepResult

/-- One loop iteration of handle_client in tcp_inpaint_server_rtmdet_only.py
after the framed payloads were received: a zero image length closes the
session; the mask payload is read and discarded; a decode failure echoes the
raw payload; an exception from inpaint falls back to the input frame without
touching the stabiliser; an encode failure echoes the raw payload. -/
def rtmHandleFrame (cfg : SConfig) (cb : Collab) (codec : Codec)
    (detRes : Except Unit (Option Preds)) (st : StabState)
    (imgBytes maskBytes : List Nat) : StepResult :=
  if imgBytes.length = 0 then .close
  else
    match codec.decodeI imgBytes with
    | none => .reply imgBytes.length imgBytes st
    | some image =>
      match stableInpaint cfg cb detRes st image none with
      | .error _ =>
        match codec.encodeI image with
        | none => .reply imgBytes.length imgBytes st
        | some e => .reply e.length e st
      | .ok out =>
        match codec.encodeI out.repaired with
        | none => .reply imgBytes.length imgBytes out.state
        | some e => .reply e.length e out.state

/-- One loop iteration of handle_client in Quest-PC_Server.py after the
framed payload was received. -/
def questHandleFrame (cfg : BConfig) (cb : Collab) (codec : Codec)
    (detRes : Except Unit (Option Preds)) (imgBytes : List Nat) : QStepResult :=
  if imgBytes.length = 0 then .close
  else
    match codec.decodeI imgBytes with
    | none => .reply imgBytes.length imgBytes
    | some image =>
      let processed :=
        match baseInpaint cfg cb detRes image none with
        | .error _ => image
        | .ok out => out.repaired
      match codec.encodeI processed with
      | none => .reply imgBytes.length imgBytes
      | some e => .reply e.length e

/- Supporting lemmas about the embedded pipelines. -/

theorem stableInpaint_ok_iff {cfg : SConfig} {cb : Collab}
    {detRes : Except Unit (Option Preds)} {st : StabState} {img : Frame}
    {pm : Option Mask} {out : SOut} :
    stableInpaint cfg cb detRes st img pm = .ok out ↔
      img.c = 3 ∧ ∃ res, detRes = .ok res ∧ out = stableRun cfg cb res st img := by
  unfold stableInpaint
  by_cases hc : img.c = 3
  · rw [if_neg (by simp [hc])]
    cases detRes with
    | error e => simp
    | ok res => simp [hc, eq_comm]
  · rw [if_pos hc]
    simp [hc]

theorem baseInpaint_ok_iff {cfg : BConfig} {cb : Collab}
    {detRes : Except Unit (Option Preds)} {img : Frame}
    {priorIn : Option Mask} {out : BOut} :
    baseInpaint cfg cb detRes img priorIn = .ok out ↔
      img.c = 3 ∧ ∃ res, detRes = .ok res ∧ out = baseRun cfg cb res img priorIn := by
  unfold baseInpaint
  by_cases hc : img.c = 3
  · rw [if_neg (by simp [hc])]
    cases detRes with
    | error e => simp
    | ok res => simp [hc, eq_comm]
  · rw [if_pos hc]
    simp [hc]

theorem filterSmall_dims (m : Mask) (a : Int) :
    (filterSmallComponents m a).h = m.h ∧ (filterSmallComponents m a).w = m.w := by
  unfold filterSmallComponents
  split
  · exact ⟨rfl, rfl⟩
  · split
    · exact ⟨rfl, rfl⟩
    · split
      · exact ⟨rfl, rfl⟩
      · exact ⟨rfl, rfl⟩

theorem filterPart_dims (cfg : SConfig) (m : Mask) :
    (filterPart cfg m).h = m.h ∧ (filterPart cfg m).w = m.w := by
  unfold filterPart
  split
  · exact filterSmall_dims m cfg.minArea
  · exact ⟨rfl, rfl⟩

/-- Dilation with a kernel containing the centre offset keeps every
in-bounds foreground pixel. -/
theorem dilateK_extensive {K : List (Int × Int)} {m : Mask} {y x : Nat}
    (hc : ((0 : Int), (0 : Int)) ∈ K) (hy : y < m.h) (hx : x < m.w)
    (hp : m.pix y x = true) : (dilateK K m).pix y x = true := by
  unfold dilateK
  simp only [List.any_eq_true]
  refine ⟨(0, 0), hc, ?_⟩
  have h1 : ((y : Int) + 0) = (y : Int) := by omega
  have h2 : ((x : Int) + 0) = (x : Int) := by omega
  simp only [h1, h2, Int.toNat_natCast, hp, Bool.and_true]
  simp only [decide_eq_true_eq]
  omega

/-- Closing with a point-symmetric kernel keeps every in-bounds foreground
pixel (classic extensivity of morphological closing). -/
theorem closeK_extensive {K : List (Int × Int)} {m : Mask} {y x : Nat}
    (hsym : ∀ d ∈ K, ((-d.1, -d.2) : Int × Int) ∈ K)
    (hy : y < m.h) (hx : x < m.w) (hp : m.pix y x = true) :
    (closeK K m).pix y x = true := by
  unfold closeK erodeK
  simp only [List.all_eq_true]
  intro d hd
  by_cases hb : 0 ≤ (y : Int) + d.1 ∧ (y : Int) + d.1 < ((dilateK K m).h : Int) ∧
      0 ≤ (x : Int) + d.2 ∧ (x : Int) + d.2 < ((dilateK K m).w : Int)
  · rw [Bool.or_eq_true]
    right
    unfold dilateK
    simp only [List.any_eq_true]
    refine ⟨(-d.1, -d.2), hsym d hd, ?_⟩
    have hdh : (dilateK K m).h = m.h := rfl
    have hdw : (dilateK K m).w = m.w := rfl
    rw [hdh, hdw] at hb
    have ha : ((((y : Int) + d.1).toNat : Int)) = (y : Int) + d.1 :=
      Int.toNat_of_nonneg hb.1
    have hb2 : ((((x : Int) + d.2).toNat : Int)) = (x : Int) + d.2 :=
      Int.toNat_of_nonneg hb.2.2.1
    have hyy : ((((y : Int) + d.1).toNat : Int) + -d.1) = (y : Int) := by omega
    have hxx : ((((x : Int) + d.2).toNat : Int) + -d.2) = (x : Int) := by omega
    simp only [hyy, hxx, Int.toNat_natCast, hp, Bool.and_true]
    simp only [decide_eq_true_eq]
    omega
  · rw [Bool.or_eq_true]
    left
    simp only [Bool.not_eq_true', decide_eq_false_iff_not]
    exact hb

/-- The expanded clamped ROI box contains every in-bounds foreground pixel
of the mask it was computed from. -/
theorem roiBounds_contains {g h w : Nat} {m : Mask} {y x : Nat}
    (hy : y < h) (hx : x < w) (hp : (y, x) ∈ fgL m) :
    (roiBounds g h w m).1 ≤ y ∧ y ≤ (roiBounds g h w m).2.1 ∧
    (roiBounds g h w m).2.2.1 ≤ x ∧ x ≤ (roiBounds g h w m).2.2.2 := by
  have h1 := yMin_le hp
  have h2 := le_yMax hp
  have h3 := xMin_le hp
  have h4 := le_xMax hp
  unfold roiBounds
  simp only [] at h1 h2 h3 h4 ⊢
  omega

/-- Folding min over a list whose f-image is constant. -/
theorem foldl_min_const {α : Type} (f : α → Nat) (v : Nat) :
    ∀ (l : List α), (∀ p ∈ l, f p = v) → l ≠ [] →
      ∀ a, l.foldl (fun acc p => min acc (f p)) a = min a v := by
  intro l
  induction l with
  | nil => intro _ h; exact absurd rfl h
  | cons b t ih =>
    intro hall _ a
    have hb : f b = v := hall b (List.mem_cons_self b t)
    show t.foldl (fun acc p => min acc (f p)) (min a (f b)) = min a v
    cases t with
    | nil => simp [hb]
    | cons c u =>
      rw [ih (fun p hp => hall p (List.mem_cons_of_mem b hp)) (by simp) (min a (f b))]
      rw [hb, min_assoc, min_self]

/-- Folding max over a list whose f-image is constant. -/
theorem foldl_max_const {α : Type} (f : α → Nat) (v : Nat) :
    ∀ (l : List α), (∀ p ∈ l, f p = v) → l ≠ [] →
      ∀ a, l.foldl (fun acc p => max acc (f p)) a = max a v := by
  intro l
  induction l with
  | nil => intro _ h; exact absurd rfl h
  | cons b t ih =>
    intro hall _ a
    have hb : f b = v := hall b (List.mem_cons_self b t)
    show t.foldl (fun acc p => max acc (f p)) (max a (f b)) = max a v
    cases t with
    | nil => simp [hb]
    | cons c u =>
      rw [ih (fun p hp => hall p (List.mem_cons_of_mem b hp)) (by simp) (max a (f b))]
      rw [hb, max_assoc, max_self]

/- Concrete fixtures used by example conjuncts, witnesses and
counterexamples. -/

/-- Identity fill operator and a centre-only kernel, a legitimate
instantiation of the external collaborators. -/
def idFill : Collab :=
  ⟨fun f _ => f, fun _ => [((0 : Int), (0 : Int))]⟩

/-- A codec whose decode yields a fixed tiny frame and whose encode yields a
fixed byte. -/
def exFrame : Frame := ⟨1, 2, 3, fun _ _ _ => 7⟩

def exCodec : Codec :=
  ⟨fun bs => if bs.length = 1 then some exFrame else none,
   fun f => if f.h = 1 then some [9, 9] else none⟩

def emptyMask : Mask := ⟨0, 0, fun _ _ => false⟩

def emptyFrame : Frame := ⟨0, 0, 0, fun _ _ _ => 0⟩

/-- Extract the .ok payload of a stable-pipeline invocation (the fixtures
below only apply it to runs that do succeed). -/
def outOf (r : Except PipeErr SOut) : SOut :=
  match r with
  | .ok o => o
  | .error _ =>
    ⟨emptyFrame, ⟨none, 0⟩, emptyMask, emptyMask, emptyMask, (0, 0, 0, 0), none, emptyFrame⟩

/-- keep_frames = 2, every postprocessing knob off, margin 0. -/
def c1cfg : SConfig := ⟨⟨[], [], 0, none⟩, 0, 0, 0, 2, 0⟩

def c1img : Frame := ⟨1, 2, 3, fun _ _ _ => 0⟩

/-- A single detection whose mask has exactly pixel (0,0) set. -/
def c1preds : Preds :=
  ⟨[some ⟨1, 2, fun y x => decide (y = 0 ∧ x = 0)⟩], [0], none⟩

def c1r1 : SOut := outOf (stableInpaint c1cfg idFill (.ok (some c1preds)) ⟨none, 0⟩ c1img none)
def c1r2 : SOut := outOf (stableInpaint c1cfg idFill (.ok none) c1r1.state c1img none)
def c1r3 : SOut := outOf (stableInpaint c1cfg idFill (.ok none) c1r2.state c1img none)
def c1r4 : SOut := outOf (stableInpaint c1cfg idFill (.ok none) c1r3.state c1img none)

/- Claim theorems. -/

/-- C1: every frame processed by RTMDetInpainterStable.inpaint updates the
Temporal Stabilizer by the spec rule — a non-empty detected mask is
remembered with persistence reset to the configured maximum (max(0, keep));
an empty one while a remembered mask has persistence > 0 substitutes the
remembered mask and decrements; an empty one otherwise passes through with
the state unchanged — and with keep_frames = 2 the detection sequence
[nonempty, empty, empty, empty] yields effective masks
[nonempty, persisted, persisted, empty]. -/
theorem c1_temporal_stabilizer_rule :
    (∀ (cfg : SConfig) (cb : Collab) (detRes : Except Unit (Option Preds))
        (st : StabState) (img : Frame) (pm : Option Mask) (out : SOut),
      stableInpaint cfg cb detRes st img pm = .ok out →
        out.state = (stabStep cfg.keepFrames st out.detMaskDbg).2 ∧
        out.finalMaskDbg = postprocessMask cfg cb (stabStep cfg.keepFrames st out.detMaskDbg).1)
  ∧ (∀ (kf : Int) (st : StabState) (m : Mask),
      (maskAny m = true →
        stabStep kf st m = (m, ⟨some m, (max 0 kf).toNat⟩)) ∧
      (0 ≤ kf → maskAny m = true → (stabStep kf st m).2.ttl = kf.toNat) ∧
      (maskAny m = false → ∀ pm, st.prev = some pm → 0 < st.ttl →
        stabStep kf st m = (pm, ⟨some pm, st.ttl - 1⟩)) ∧
      (maskAny m = false → st.prev = none ∨ st.ttl = 0 →
        stabStep kf st m = (m, st)))
  ∧ (c1r1.finalMaskDbg.pix 0 0 = true ∧ c1r1.state.ttl = 2 ∧
     maskAny c1r2.detMaskDbg = false ∧
     c1r2.finalMaskDbg.pix 0 0 = true ∧ c1r2.state.ttl = 1 ∧
     c1r3.finalMaskDbg.pix 0 0 = true ∧ c1r3.state.ttl = 0 ∧
     maskAny c1r4.finalMaskDbg = false ∧ c1r4.state.ttl = 0) := by
  refine ⟨?_, ?_, ?_⟩
  · intro cfg cb detRes st img pm out hok
    obtain ⟨hc, res, hres, hout⟩ := stableInpaint_ok_iff.mp hok
    subst hout
    exact ⟨rfl, rfl⟩
  · intro kf st m
    refine ⟨?_, ?_, ?_, ?_⟩
    · intro hm
      unfold stabStep
      rw [if_neg (by simp [hm]), if_pos hm]
    · intro hkf hm
      unfold stabStep
      rw [if_neg (by simp [hm]), if_pos hm]
      simp [Int.toNat_of_nonneg, max_eq_right hkf]
    · intro hm pm hpm httl
      unfold stabStep
      rw [if_pos ⟨hm, by simp [hpm], httl⟩]
      simp [hpm]
    · intro hm hidle
      unfold stabStep
      rw [if_neg ?_, if_neg (by simp [hm])]
      rcases hidle with h | h
      · simp [h]
      · simp [h, hm]
  · decide

/-- C1 witness: the rule instantiated at a concrete non-empty mask and
concrete state, all hypotheses discharged. -/
theorem c1_temporal_stabilizer_rule_witness :
    stabStep 2 ⟨none, 0⟩ ⟨1, 2, fun y x => decide (y = 0 ∧ x = 0)⟩ =
      (⟨1, 2, fun y x => decide (y = 0 ∧ x = 0)⟩,
       ⟨some ⟨1, 2, fun y x => decide (y = 0 ∧ x = 0)⟩, (max 0 (2 : Int)).toNat⟩) :=
  (c1_temporal_stabilizer_rule.2.1 2 ⟨none, 0⟩
    ⟨1, 2, fun y x => decide (y = 0 ∧ x = 0)⟩).1 (by decide)

/-- min_area = 64 with the other knobs off: the single-pixel detection is
removed by the small-component filter, yet the stabiliser already stored it. -/
def c3cfg : SConfig := ⟨⟨[], [], 0, none⟩, 0, 0, 64, 2, 0⟩

def c3r : SOut := outOf (stableInpaint c3cfg idFill (.ok (some c1preds)) ⟨none, 0⟩ c1img none)

/-- C3 counterexample: with min_area = 64 a frame whose detection is a
single pixel ends with a remembered mask that still contains the pixel and
a persistence of 2, while the postprocessed mask of the same frame is
empty: the Stabilizer therefore ran BEFORE the Mask Postprocessor and
remembered the raw mask, contradicting the claimed order (which would have
remembered nothing on this frame). -/
theorem c3_counterexample :
    (c3r.state.prev.getD emptyMask).pix 0 0 = true ∧
    c3r.state.ttl = 2 ∧
    c3r.finalMaskDbg.pix 0 0 = false ∧
    maskAny c3r.finalMaskDbg = false := by
  decide

/-- C3 amended: the Temporal Stabilizer transition is applied BEFORE the
Mask Postprocessor; the mask it remembers (and later persists) is the raw
detection mask of the frame, and the mask handed onward is the
postprocessor applied to the stabiliser's output. -/
theorem c3_stabilizer_before_postprocessor :
    ∀ (cfg : SConfig) (cb : Collab) (detRes : Except Unit (Option Preds))
        (st : StabState) (img : Frame) (pm : Option Mask) (out : SOut),
      stableInpaint cfg cb detRes st img pm = .ok out →
        (maskAny out.detMaskDbg = true → out.state.prev = some out.detMaskDbg) ∧
        out.finalMaskDbg =
          postprocessMask cfg cb (stabStep cfg.keepFrames st out.detMaskDbg).1 ∧
        out.inpaintMaskDbg = out.finalMaskDbg := by
  intro cfg cb detRes st img pm out hok
  obtain ⟨hc, res, hres, hout⟩ := stableInpaint_ok_iff.mp hok
  subst hout
  refine ⟨?_, rfl, rfl⟩
  intro hm
  have hdm : (stableRun cfg cb res st img).detMaskDbg = stableDetMask cfg res img.h img.w := rfl
  rw [hdm] at hm ⊢
  show (stabStep cfg.keepFrames st (stableDetMask cfg res img.h img.w)).2.prev =
    some (stableDetMask cfg res img.h img.w)
  unfold stabStep
  rw [if_neg (by simp [hm]), if_pos hm]

/-- C3 amended witness: a concrete successful run of the pipeline. -/
theorem c3_stabilizer_before_postprocessor_witness :
    (maskAny c3r.detMaskDbg = true → c3r.state.prev = some c3r.detMaskDbg) ∧
    c3r.finalMaskDbg =
      postprocessMask c3cfg idFill (stabStep c3cfg.keepFrames ⟨none, 0⟩ c3r.detMaskDbg).1 ∧
    c3r.inpaintMaskDbg = c3r.finalMaskDbg :=
  c3_stabilizer_before_postprocessor c3cfg idFill (.ok (some c1preds)) ⟨none, 0⟩
    c1img none c3r rfl

/-- C4: the ROI reduction of the stable pipeline — a single-pixel mask
yields the pixel clamped ± margin to the image extent; an all-empty mask
computes no ROI and runs no fill; a non-empty mask with a degenerate
expanded box falls back to filling the whole frame with the whole mask. -/
theorem c4_roi_reducer :
    (∀ (m : Mask) (g y x : Nat), y < m.h → x < m.w →
      (∀ p, p ∈ fgL m ↔ p = (y, x)) →
      ((((roiBounds g m.h m.w m).1 : Int) = max ((y : Int) - g) 0) ∧
       (((roiBounds g m.h m.w m).2.1 : Int) = min ((y : Int) + g) ((m.h : Int) - 1)) ∧
       (((roiBounds g m.h m.w m).2.2.1 : Int) = max ((x : Int) - g) 0) ∧
       (((roiBounds g m.h m.w m).2.2.2 : Int) = min ((x : Int) + g) ((m.w : Int) - 1))))
  ∧ (∀ (cb : Collab) (g : Nat) (img : Frame) (mask : Mask), maskAny mask = false →
      stableROIFill cb g img mask = (img, (0, 0, 0, 0), none))
  ∧ (∀ (cb : Collab) (g : Nat) (img : Frame) (mask : Mask), maskAny mask = true →
      ((roiBounds g img.h img.w mask).2.1 ≤ (roiBounds g img.h img.w mask).1 ∨
       (roiBounds g img.h img.w mask).2.2.2 ≤ (roiBounds g img.h img.w mask).2.2.1) →
      stableROIFill cb g img mask =
        (cb.fill img mask, (0, img.h - 1, 0, img.w - 1), some (img, mask))) := by
  refine ⟨?_, ?_, ?_⟩
  · intro m g y x hy hx hmem
    have hne : fgL m ≠ [] := by
      intro hnil
      have := hmem (y, x)
      rw [hnil] at this
      exact absurd (this.mpr rfl) (List.not_mem_nil (y, x))
    have hally : ∀ p ∈ fgL m, p.1 = y := by
      intro p hp; rw [(hmem p).mp hp]
    have hallx : ∀ p ∈ fgL m, p.2 = x := by
      intro p hp; rw [(hmem p).mp hp]
    have hymin : yMin m = min m.h y := foldl_min_const _ y (fgL m) hally hne m.h
    have hymax : yMax m = max 0 y := foldl_max_const _ y (fgL m) hally hne 0
    have hxmin : xMin m = min m.w x := foldl_min_const _ x (fgL m) hallx hne m.w
    have hxmax : xMax m = max 0 x := foldl_max_const _ x (fgL m) hallx hne 0
    unfold roiBounds
    simp only [hymin, hymax, hxmin, hxmax]
    refine ⟨?_, ?_, ?_, ?_⟩ <;> omega
  · intro cb g img mask hm
    unfold stableROIFill
    rw [if_pos hm]
  · intro cb g img mask hm hdeg
    unfold stableROIFill
    rw [if_neg (by simp [hm]), if_pos hdeg]

/-- A 5x7 mask whose only set pixel is (2,3). -/
def c4m : Mask := ⟨5, 7, fun y x => decide (y = 2 ∧ x = 3)⟩

/-- C4 witness: the single-pixel case at (2,3) with margin 10 on a 5x7
frame (clamped on every side), and the degenerate case with margin 0. -/
theorem c4_roi_reducer_witness :
    ((((roiBounds 10 c4m.h c4m.w c4m).1 : Int) = max ((2 : Int) - 10) 0) ∧
     (((roiBounds 10 c4m.h c4m.w c4m).2.1 : Int) = min ((2 : Int) + 10) ((c4m.h : Int) - 1)) ∧
     (((roiBounds 10 c4m.h c4m.w c4m).2.2.1 : Int) = max ((3 : Int) - 10) 0) ∧
     (((roiBounds 10 c4m.h c4m.w c4m).2.2.2 : Int) = min ((3 : Int) + 10) ((c4m.w : Int) - 1)))
    ∧ stableROIFill idFill 3 c1img emptyMask = (c1img, (0, 0, 0, 0), none) := by
  constructor
  · refine c4_roi_reducer.1 c4m 10 2 3 (by decide) (by decide) ?_
    intro p
    rw [show fgL c4m = [(2, 3)] from rfl]
    simp
  · exact c4_roi_reducer.2.1 idFill 3 c1img emptyMask (by decide)

/-- The repaired frame of the stable fill stage has the input frame's
dimensions whenever the fill operator preserves dimensions. -/
theorem stableROIFill_dims {cb : Collab} {g : Nat} {img : Frame} {mask : Mask}
    (hfill : ∀ f m, (cb.fill f m).h = f.h ∧ (cb.fill f m).w = f.w ∧ (cb.fill f m).c = f.c) :
    (stableROIFill cb g img mask).1.h = img.h ∧
    (stableROIFill cb g img mask).1.w = img.w ∧
    (stableROIFill cb g img mask).1.c = img.c := by
  unfold stableROIFill
  split
  · exact ⟨rfl, rfl, rfl⟩
  · dsimp only
    split
    · exact hfill img mask
    · exact ⟨rfl, rfl, rfl⟩

/-- C6: both pipeline variants return a frame of the input's height, width
and channel count, and the caller's input frame is unchanged at return
(every in-place write in the source targets a copy, which the embedding
reflects by threading the input's value to inputAfter). -/
theorem c6_dims_preserved_input_unmodified :
    (∀ (cfg : SConfig) (cb : Collab) (detRes : Except Unit (Option Preds))
        (st : StabState) (img : Frame) (pm : Option Mask) (out : SOut),
      (∀ f m, (cb.fill f m).h = f.h ∧ (cb.fill f m).w = f.w ∧ (cb.fill f m).c = f.c) →
      stableInpaint cfg cb detRes st img pm = .ok out →
      out.repaired.h = img.h ∧ out.repaired.w = img.w ∧ out.repaired.c = img.c ∧
      out.inputAfter = img)
  ∧ (∀ (cfg : BConfig) (cb : Collab) (detRes : Except Unit (Option Preds))
        (img : Frame) (pm : Option Mask) (out : BOut),
      (∀ f m, (cb.fill f m).h = f.h ∧ (cb.fill f m).w = f.w ∧ (cb.fill f m).c = f.c) →
      baseInpaint cfg cb detRes img pm = .ok out →
      out.repaired.h = img.h ∧ out.repaired.w = img.w ∧ out.repaired.c = img.c ∧
      out.inputAfter = img) := by
  constructor
  · intro cfg cb detRes st img pm out hfill hok
    obtain ⟨hc, res, hres, hout⟩ := stableInpaint_ok_iff.mp hok
    subst hout
    have hd := @stableROIFill_dims cb cfg.roiMargin img
      (postprocessMask cfg cb
        (stabStep cfg.keepFrames st (stableDetMask cfg res img.h img.w)).1) hfill
    exact ⟨hd.1, hd.2.1, hd.2.2, rfl⟩
  · intro cfg cb detRes img pm out hfill hok
    obtain ⟨hc, res, hres, hout⟩ := baseInpaint_ok_iff.mp hok
    subst hout
    unfold baseRun
    dsimp only
    cases res with
    | none =>
      cases hp : (basePriorStage img pm).prior with
      | none => exact ⟨rfl, rfl, rfl, rfl⟩
      | some p =>
        exact ⟨(hfill img p).1, (hfill img p).2.1, (hfill img p).2.2, rfl⟩
    | some preds =>
      dsimp only
      cases hAny : maskAny (buildCombinedMask cfg preds
          (baseInferDims cfg img.h img.w (basePriorStage img pm)).2
          (baseInferDims cfg img.h img.w (basePriorStage img pm)).1) with
      | true =>
        rw [if_neg (by simp [hAny])]
        exact ⟨(hfill img _).1, (hfill img _).2.1, (hfill img _).2.2, rfl⟩
      | false =>
        rw [if_pos rfl]
        cases hp : (basePriorStage img pm).prior with
        | none => exact ⟨rfl, rfl, rfl, rfl⟩
        | some p =>
          exact ⟨(hfill img p).1, (hfill img p).2.1, (hfill img p).2.2, rfl⟩

/-- C6 witness: a concrete successful run with the identity fill. -/
theorem c6_dims_preserved_input_unmodified_witness :
    c1r1.repaired.h = c1img.h ∧ c1r1.repaired.w = c1img.w ∧
    c1r1.repaired.c = c1img.c ∧ c1r1.inputAfter = c1img :=
  c6_dims_preserved_input_unmodified.1 c1cfg idFill (.ok (some c1preds)) ⟨none, 0⟩
    c1img none c1r1 (fun _ _ => ⟨rfl, rfl, rfl⟩) rfl

/-- C7: when the detector invocation raises, the RTMDet-only session
handler replies with the (encoded) unmodified input frame — or echoes the
raw payload if even that encode fails — the session continues (a reply, not
a close), and the stabiliser state is exactly what it was before the
frame. -/
theorem c7_detector_failure_passthrough :
    ∀ (cfg : SConfig) (cb : Collab) (codec : Codec) (st : StabState)
      (imgBytes maskBytes : List Nat) (image : Frame),
      imgBytes.length ≠ 0 →
      codec.decodeI imgBytes = some image →
      ((∀ e, codec.encodeI image = some e →
        rtmHandleFrame cfg cb codec (.error ()) st imgBytes maskBytes =
          .reply e.length e st) ∧
       (codec.encodeI image = none →
        rtmHandleFrame cfg cb codec (.error ()) st imgBytes maskBytes =
          .reply imgBytes.length imgBytes st)) := by
  intro cfg cb codec st imgBytes maskBytes image hlen hdec
  have herr : ∃ er, stableInpaint cfg cb (.error ()) st image none = .error er := by
    unfold stableInpaint
    by_cases hc : image.c ≠ 3
    · exact ⟨.valueError, by rw [if_pos hc]⟩
    · exact ⟨.inferError, by rw [if_neg hc]⟩
  obtain ⟨er, he⟩ := herr
  constructor
  · intro e henc
    unfold rtmHandleFrame
    rw [if_neg hlen, hdec]
    dsimp only
    rw [he]
    dsimp only
    rw [henc]
  · intro henc
    unfold rtmHandleFrame
    rw [if_neg hlen, hdec]
    dsimp only
    rw [he]
    dsimp only
    rw [henc]

/-- C7 witness: concrete codec and payload; the encode of the decoded frame
succeeds and is echoed back with the state untouched. -/
theorem c7_detector_failure_passthrough_witness :
    rtmHandleFrame c1cfg idFill exCodec (.error ()) ⟨none, 5⟩ [3] [] =
      .reply 2 [9, 9] ⟨none, 5⟩ :=
  (c7_detector_failure_passthrough c1cfg idFill exCodec ⟨none, 5⟩ [3] [] exFrame
    (by decide) rfl).1 [9, 9] rfl

/-- C8: a decode failure, or an encode failure of the repaired result,
makes both session handlers echo the raw image payload, length-prefixed
with the payload's own length, and continue the session (a reply, not a
close). -/
theorem c8_codec_failure_echo :
    (∀ (cfg : SConfig) (cb : Collab) (codec : Codec)
        (detRes : Except Unit (Option Preds)) (st : StabState)
        (imgBytes maskBytes : List Nat),
      imgBytes.length ≠ 0 → codec.decodeI imgBytes = none →
      rtmHandleFrame cfg cb codec detRes st imgBytes maskBytes =
        .reply imgBytes.length imgBytes st)
  ∧ (∀ (cfg : SConfig) (cb : Collab) (codec : Codec)
        (detRes : Except Unit (Option Preds)) (st : StabState)
        (imgBytes maskBytes : List Nat) (image : Frame) (out : SOut),
      imgBytes.length ≠ 0 → codec.decodeI imgBytes = some image →
      stableInpaint cfg cb detRes st image none = .ok out →
      codec.encodeI out.repaired = none →
      rtmHandleFrame cfg cb codec detRes st imgBytes maskBytes =
        .reply imgBytes.length imgBytes out.state)
  ∧ (∀ (cfg : BConfig) (cb : Collab) (codec : Codec)
        (detRes : Except Unit (Option Preds)) (imgBytes : List Nat),
      imgBytes.length ≠ 0 → codec.decodeI imgBytes = none →
      questHandleFrame cfg cb codec detRes imgBytes =
        .reply imgBytes.length imgBytes)
  ∧ (∀ (cfg : BConfig) (cb : Collab) (codec : Codec)
        (detRes : Except Unit (Option Preds)) (imgBytes : List Nat)
        (image : Frame) (out : BOut),
      imgBytes.length ≠ 0 → codec.decodeI imgBytes = some image →
      baseInpaint cfg cb detRes image none = .ok out →
      codec.encodeI out.repaired = none →
      questHandleFrame cfg cb codec detRes imgBytes =
        .reply imgBytes.length imgBytes) := by
  refine ⟨?_, ?_, ?_, ?_⟩
  · intro cfg cb codec detRes st imgBytes maskBytes hlen hdec
    unfold rtmHandleFrame
    rw [if_neg hlen, hdec]
  · intro cfg cb codec detRes st imgBytes maskBytes image out hlen hdec hok henc
    unfold rtmHandleFrame
    rw [if_neg hlen, hdec]
    dsimp only
    rw [hok]
    dsimp only
    rw [henc]
  · intro cfg cb codec detRes imgBytes hlen hdec
    unfold questHandleFrame
    rw [if_neg hlen, hdec]
  · intro cfg cb codec detRes imgBytes image out hlen hdec hok henc
    unfold questHandleFrame
    rw [if_neg hlen, hdec]
    dsimp only
    rw [hok]
    dsimp only
    rw [henc]

/-- A codec that always fails to decode, for the C8 witness. -/
def noDecodeCodec : Codec := ⟨fun _ => none, fun _ => some [1]⟩

/-- C8 witness: a concrete decode failure echoes the two raw bytes with
length prefix 2 and keeps the session alive. -/
theorem c8_codec_failure_echo_witness :
    rtmHandleFrame c1cfg idFill noDecodeCodec (.ok none) ⟨none, 0⟩ [4, 5] [] =
      .reply 2 [4, 5] ⟨none, 0⟩ :=
  c8_codec_failure_echo.1 c1cfg idFill noDecodeCodec (.ok none) ⟨none, 0⟩ [4, 5] []
    (by decide) rfl

theorem foldl_dims_invariant {α : Type} (g : Mask → α → Mask)
    (hg : ∀ c i, (g c i).h = c.h ∧ (g c i).w = c.w) :
    ∀ (l : List α) (c : Mask), (l.foldl g c).h = c.h ∧ (l.foldl g c).w = c.w := by
  intro l
  induction l with
  | nil => intro c; exact ⟨rfl, rfl⟩
  | cons b t ih =>
    intro c
    have h1 := hg c b
    have h2 := ih (g c b)
    exact ⟨h2.1.trans h1.1, h2.2.trans h1.2⟩

/-- The combined mask always carries the requested target shape. -/
theorem buildCombined_dims (cfg : BConfig) (preds : Preds) (tH tW : Nat) :
    (buildCombinedMask cfg preds tH tW).h = tH ∧
    (buildCombinedMask cfg preds tH tW).w = tW := by
  unfold buildCombinedMask
  dsimp only
  split
  · exact ⟨rfl, rfl⟩
  · refine foldl_dims_invariant _ ?_ _ _
    intro c i
    dsimp only
    split
    · exact ⟨rfl, rfl⟩
    · split
      · exact ⟨rfl, rfl⟩
      · split
        · exact ⟨rfl, rfl⟩
        · exact ⟨rfl, rfl⟩

/-- After the resize-back step the mask carries the working dimensions. -/
theorem resizeToWorking_dims {ps : PriorStage} {ih iw : Nat} {c : Mask}
    (hch : c.h = ih) (hcw : c.w = iw) :
    (resizeToWorking ps ih iw c).h = ps.working.h ∧
    (resizeToWorking ps ih iw c).w = ps.working.w := by
  unfold resizeToWorking
  split
  · exact ⟨rfl, rfl⟩
  · next hcond =>
    have heq : (ih, iw) = (ps.working.h, ps.working.w) := not_ne_iff.mp hcond
    exact ⟨hch.trans (congrArg Prod.fst heq), hcw.trans (congrArg Prod.snd heq)⟩

/-- Inversion of the hint preamble when the expanded hint box supports a
crop: every field is explicit. -/
theorem basePriorStage_crop {img : Frame} {pm0 : Mask}
    (hh : pm0.h = img.h) (hw : pm0.w = img.w) (hany : maskAny pm0 = true)
    (hcnd : 2 < min (yMax pm0 + bMargin img.h img.w) (img.h - 1) -
              (yMin pm0 - bMargin img.h img.w) ∧
            2 < min (xMax pm0 + bMargin img.h img.w) (img.w - 1) -
              (xMin pm0 - bMargin img.h img.w)) :
    basePriorStage img (some pm0) =
      ⟨some pm0,
       some (yMin pm0 - bMargin img.h img.w,
             min (yMax pm0 + bMargin img.h img.w) (img.h - 1) + 1,
             xMin pm0 - bMargin img.h img.w,
             min (xMax pm0 + bMargin img.h img.w) (img.w - 1) + 1),
       cropF img (yMin pm0 - bMargin img.h img.w)
         (min (yMax pm0 + bMargin img.h img.w) (img.h - 1) + 1)
         (xMin pm0 - bMargin img.h img.w)
         (min (xMax pm0 + bMargin img.h img.w) (img.w - 1) + 1),
       some (cropM pm0 (yMin pm0 - bMargin img.h img.w)
         (min (yMax pm0 + bMargin img.h img.w) (img.h - 1) + 1)
         (xMin pm0 - bMargin img.h img.w)
         (min (xMax pm0 + bMargin img.h img.w) (img.w - 1) + 1))⟩ := by
  unfold basePriorStage
  dsimp only
  have hsh : (if (pm0.h, pm0.w) ≠ (img.h, img.w)
      then resizeMask pm0 img.w img.h else pm0) = pm0 :=
    if_neg (by simp [hh, hw])
  rw [hsh, if_pos hany, if_pos hcnd]

/-- Inversion of the hint preamble when the expanded hint box is
degenerate: the hint survives but no crop is taken. -/
theorem basePriorStage_nocrop {img : Frame} {pm0 : Mask}
    (hh : pm0.h = img.h) (hw : pm0.w = img.w) (hany : maskAny pm0 = true)
    (hcnd : ¬(2 < min (yMax pm0 + bMargin img.h img.w) (img.h - 1) -
                (yMin pm0 - bMargin img.h img.w) ∧
              2 < min (xMax pm0 + bMargin img.h img.w) (img.w - 1) -
                (xMin pm0 - bMargin img.h img.w))) :
    basePriorStage img (some pm0) = ⟨some pm0, none, img, none⟩ := by
  unfold basePriorStage
  dsimp only
  have hsh : (if (pm0.h, pm0.w) ≠ (img.h, img.w)
      then resizeMask pm0 img.w img.h else pm0) = pm0 :=
    if_neg (by simp [hh, hw])
  rw [hsh, if_pos hany, if_neg hcnd]

/-- All postprocessing knobs off, keep_frames = 2, margin 0, on a 1x3
frame; the detection has exactly pixel (0,0) set and the hint exactly
(0,2). -/
def c2img : Frame := ⟨1, 3, 3, fun _ _ _ => 0⟩

def c2hint : Mask := ⟨1, 3, fun y x => decide (y = 0 ∧ x = 2)⟩

def c2preds : Preds :=
  ⟨[some ⟨1, 3, fun y x => decide (y = 0 ∧ x = 0)⟩], [0], none⟩

def c2r : SOut :=
  outOf (stableInpaint c1cfg idFill (.ok (some c2preds)) ⟨none, 0⟩ c2img (some c2hint))

/-- C2 counterexample: the stable pipeline, called with a non-empty hint
mask marking (0,2) and a detection at (0,0), invokes the fill operator with
a mask that contains the detection pixel but NOT the hint pixel — a
contributing source's foreground pixel is dropped without the
small-component filter being involved (all knobs are off). -/
theorem c2_counterexample :
    c2hint.pix 0 2 = true ∧
    c2r.fillCall.map (fun fc => fc.2.pix 0 2) = some false ∧
    c2r.fillCall.map (fun fc => fc.2.pix 0 0) = some true := by
  decide

/-- The inference dimensions actually used by baseRun for a given call. -/
def baseDimsOf (cfg : BConfig) (img : Frame) (priorIn : Option Mask) : Nat × Nat :=
  baseInferDims cfg img.h img.w (basePriorStage img priorIn)

/-- The combined detection mask actually built by baseRun for a given call. -/
def baseCombinedOf (cfg : BConfig) (preds : Preds) (img : Frame)
    (priorIn : Option Mask) : Mask :=
  buildCombinedMask cfg preds (baseDimsOf cfg img priorIn).2 (baseDimsOf cfg img priorIn).1

/-- The detector contribution at working resolution (after resize-back). -/
def baseDetWorkingOf (cfg : BConfig) (preds : Preds) (img : Frame)
    (priorIn : Option Mask) : Mask :=
  resizeToWorking (basePriorStage img priorIn) (baseDimsOf cfg img priorIn).2
    (baseDimsOf cfg img priorIn).1 (baseCombinedOf cfg preds img priorIn)

/-- The final fill mask assembled by baseRun when the combined mask is
non-empty. -/
def baseFillMaskOf (cfg : BConfig) (preds : Preds) (img : Frame)
    (priorIn : Option Mask) : Mask :=
  baseMaskAssembly img.h img.w (baseDimsOf cfg img priorIn).2
    (baseDimsOf cfg img priorIn).1 (basePriorStage img priorIn)
    (baseCombinedOf cfg preds img priorIn)

/-- The Mask Postprocessor never drops a pixel that survives its own
small-component knob: closing and dilation are extensive for the elliptical
kernel (point-symmetric, centre included). -/
theorem postprocess_superset {cfg : SConfig} {cb : Collab} {m : Mask} {y x : Nat}
    (hker : ((0 : Int), (0 : Int)) ∈ cb.kernelOf (max cfg.maskClose cfg.maskDilate).toNat)
    (hsym : ∀ d ∈ cb.kernelOf (max cfg.maskClose cfg.maskDilate).toNat,
      ((-d.1, -d.2) : Int × Int) ∈ cb.kernelOf (max cfg.maskClose cfg.maskDilate).toNat)
    (hy : y < m.h) (hx : x < m.w)
    (hpix : (filterPart cfg m).pix y x = true) :
    (postprocessMask cfg cb m).pix y x = true := by
  have hdims := filterPart_dims cfg m
  have hy2 : y < (filterPart cfg m).h := by rw [hdims.1]; exact hy
  have hx2 : x < (filterPart cfg m).w := by rw [hdims.2]; exact hx
  unfold postprocessMask
  dsimp only
  by_cases hk : 0 < max cfg.maskClose cfg.maskDilate
  · rw [if_pos hk]
    by_cases hcl : 0 < cfg.maskClose
    · rw [if_pos hcl]
      by_cases hdl : 0 < cfg.maskDilate
      · rw [if_pos hdl]
        exact dilateK_extensive hker hy2 hx2 (closeK_extensive hsym hy2 hx2 hpix)
      · rw [if_neg hdl]
        exact closeK_extensive hsym hy2 hx2 hpix
    · rw [if_neg hcl]
      by_cases hdl : 0 < cfg.maskDilate
      · rw [if_pos hdl]
        exact dilateK_extensive hker hy2 hx2 hpix
      · rw [if_neg hdl]
        exact hpix
  · rw [if_neg hk]
    exact hpix

/-- In the crop branch of the base pipeline the assembled fill mask
contains every hint pixel and every detector pixel (the latter re-expressed
in full-frame coordinates through the crop offset). -/
theorem baseMaskAssembly_crop_superset (img : Frame) (pm0 combined : Mask)
    (ih iw cy0 cy1ex cx0 cx1ex : Nat)
    (hh : pm0.h = img.h) (hw : pm0.w = img.w)
    (hcombh : combined.h = ih) (hcombw : combined.w = iw)
    (hwin : ∀ y x, y < img.h → x < img.w → pm0.pix y x = true →
      cy0 ≤ y ∧ y < cy1ex ∧ cx0 ≤ x ∧ x < cx1ex)
    (hy1 : cy1ex ≤ img.h) (hx1 : cx1ex ≤ img.w) :
    (∀ y x, y < img.h → x < img.w → pm0.pix y x = true →
      (baseMaskAssembly img.h img.w ih iw
        ⟨some pm0, some (cy0, cy1ex, cx0, cx1ex), cropF img cy0 cy1ex cx0 cx1ex,
         some (cropM pm0 cy0 cy1ex cx0 cx1ex)⟩ combined).pix y x = true) ∧
    (∀ y x, y < cy1ex - cy0 → x < cx1ex - cx0 →
      (resizeToWorking
        ⟨some pm0, some (cy0, cy1ex, cx0, cx1ex), cropF img cy0 cy1ex cx0 cx1ex,
         some (cropM pm0 cy0 cy1ex cx0 cx1ex)⟩ ih iw combined).pix y x = true →
      (baseMaskAssembly img.h img.w ih iw
        ⟨some pm0, some (cy0, cy1ex, cx0, cx1ex), cropF img cy0 cy1ex cx0 cx1ex,
         some (cropM pm0 cy0 cy1ex cx0 cx1ex)⟩ combined).pix (cy0 + y) (cx0 + x) = true) := by
  have hc2 := @resizeToWorking_dims
    ⟨some pm0, some (cy0, cy1ex, cx0, cx1ex), cropF img cy0 cy1ex cx0 cx1ex,
     some (cropM pm0 cy0 cy1ex cx0 cx1ex)⟩ ih iw combined hcombh hcombw
  have horh : (orM (resizeToWorking
      ⟨some pm0, some (cy0, cy1ex, cx0, cx1ex), cropF img cy0 cy1ex cx0 cx1ex,
       some (cropM pm0 cy0 cy1ex cx0 cx1ex)⟩ ih iw combined)
      (cropM pm0 cy0 cy1ex cx0 cx1ex)).h = cy1ex - cy0 := hc2.1
  have horw : (orM (resizeToWorking
      ⟨some pm0, some (cy0, cy1ex, cx0, cx1ex), cropF img cy0 cy1ex cx0 cx1ex,
       some (cropM pm0 cy0 cy1ex cx0 cx1ex)⟩ ih iw combined)
      (cropM pm0 cy0 cy1ex cx0 cx1ex)).w = cx1ex - cx0 := hc2.2
  unfold baseMaskAssembly
  dsimp only
  by_cases hsz : ((orM (resizeToWorking
      ⟨some pm0, some (cy0, cy1ex, cx0, cx1ex), cropF img cy0 cy1ex cx0 cx1ex,
       some (cropM pm0 cy0 cy1ex cx0 cx1ex)⟩ ih iw combined)
      (cropM pm0 cy0 cy1ex cx0 cx1ex)).h,
      (orM (resizeToWorking
      ⟨some pm0, some (cy0, cy1ex, cx0, cx1ex), cropF img cy0 cy1ex cx0 cx1ex,
       some (cropM pm0 cy0 cy1ex cx0 cx1ex)⟩ ih iw combined)
      (cropM pm0 cy0 cy1ex cx0 cx1ex)).w) ≠ (img.h, img.w)
  · rw [if_pos hsz, if_neg ?hc1]
    case hc1 =>
      rw [not_ne_iff, Prod.mk.injEq]
      exact ⟨hh.symm, hw.symm⟩
    constructor
    · intro y x hy hx hpix
      obtain ⟨h1, h2, h3, h4⟩ := hwin y x hy hx hpix
      unfold stitchM
      dsimp only
      simp only [Bool.and_eq_true, decide_eq_true_eq]
      constructor
      · refine ⟨h1, ?_, h3, ?_⟩
        · omega
        · omega
      · unfold orM cropM
        dsimp only
        simp only [Bool.or_eq_true]
        right
        have hyy : cy0 + (y - cy0) = y := by omega
        have hxx : cx0 + (x - cx0) = x := by omega
        rw [hyy, hxx]
        exact hpix
    · intro y x hy hx hpix
      unfold stitchM
      dsimp only
      simp only [Bool.and_eq_true, decide_eq_true_eq]
      constructor
      · refine ⟨by omega, ?_, by omega, ?_⟩
        · omega
        · omega
      · unfold orM
        dsimp only
        simp only [Bool.or_eq_true]
        left
        have hyy : cy0 + y - cy0 = y := by omega
        have hxx : cx0 + x - cx0 = x := by omega
        rw [hyy, hxx]
        exact hpix
  · have heq := not_ne_iff.mp hsz
    have hH : cy1ex - cy0 = img.h := by
      have h1 := congrArg Prod.fst heq
      simp only at h1
      rw [horh] at h1
      exact h1
    have hW : cx1ex - cx0 = img.w := by
      have h1 := congrArg Prod.snd heq
      simp only at h1
      rw [horw] at h1
      exact h1
    rw [if_neg hsz, if_neg ?hc2]
    case hc2 =>
      rw [not_ne_iff, Prod.mk.injEq]
      exact ⟨by rw [horh, hH, hh], by rw [horw, hW, hw]⟩
    constructor
    · intro y x hy hx hpix
      obtain ⟨h1, h2, h3, h4⟩ := hwin y x hy hx hpix
      have hcy : cy0 = 0 := by omega
      have hcx : cx0 = 0 := by omega
      unfold orM cropM
      dsimp only
      simp only [Bool.or_eq_true]
      right
      have hyy : cy0 + y = y := by omega
      have hxx : cx0 + x = x := by omega
      rw [hyy, hxx]
      exact hpix
    · intro y x hy hx hpix
      unfold orM
      dsimp only
      simp only [Bool.or_eq_true]
      left
      have hyy : cy0 + y = y := by omega
      have hxx : cx0 + x = x := by omega
      rw [hyy, hxx]
      exact hpix

/-- C2 amended: no contributing foreground pixel is dropped except by the
small-component filter, with the two code-forced exceptions — the stable
pipeline ignores the hint mask entirely (its contributing sources are the
detection mask and the persisted mask only), and the base pipeline, when a
non-empty hint's expanded box is degenerate, uses the hint alone and drops
the detection mask.  Conjuncts: (A) in the stable pipeline every pixel of
the stabiliser's effective mask that survives the small-component filter is
in the mask handed to the fill operator (morphology only grows the mask);
(A2) the stable ROI crop window contains every foreground pixel of the
final mask, so cropping loses none of it; (B1) in the base pipeline with no
surviving hint the fill mask is exactly the detector mask; (B2) with a
surviving frame-shaped hint and a non-degenerate crop, every hint pixel and
every (stitched) detector pixel is in the fill mask; (B3) with a surviving
hint but a degenerate box the fill mask is the hint alone. -/
theorem c2_fill_mask_superset :
    (∀ (cfg : SConfig) (cb : Collab) (res : Option Preds) (st : StabState)
        (img : Frame) (y x : Nat),
      ((0 : Int), (0 : Int)) ∈ cb.kernelOf (max cfg.maskClose cfg.maskDilate).toNat →
      (∀ d ∈ cb.kernelOf (max cfg.maskClose cfg.maskDilate).toNat,
        ((-d.1, -d.2) : Int × Int) ∈ cb.kernelOf (max cfg.maskClose cfg.maskDilate).toNat) →
      y < (stabStep cfg.keepFrames st (stableDetMask cfg res img.h img.w)).1.h →
      x < (stabStep cfg.keepFrames st (stableDetMask cfg res img.h img.w)).1.w →
      (filterPart cfg
        (stabStep cfg.keepFrames st (stableDetMask cfg res img.h img.w)).1).pix y x = true →
      (stableRun cfg cb res st img).inpaintMaskDbg.pix y x = true)
  ∧ (∀ (g h w : Nat) (m : Mask) (y x : Nat), y < h → x < w → (y, x) ∈ fgL m →
      (roiBounds g h w m).1 ≤ y ∧ y ≤ (roiBounds g h w m).2.1 ∧
      (roiBounds g h w m).2.2.1 ≤ x ∧ x ≤ (roiBounds g h w m).2.2.2)
  ∧ (∀ (cfg : BConfig) (cb : Collab) (preds : Preds) (img : Frame),
      maskAny (baseCombinedOf cfg preds img none) = true →
      (baseRun cfg cb (some preds) img none).fillCall =
        some (img, baseDetWorkingOf cfg preds img none))
  ∧ (∀ (cfg : BConfig) (cb : Collab) (preds : Preds) (img : Frame) (pm0 : Mask),
      pm0.h = img.h → pm0.w = img.w → maskAny pm0 = true →
      2 < min (yMax pm0 + bMargin img.h img.w) (img.h - 1) -
            (yMin pm0 - bMargin img.h img.w) →
      2 < min (xMax pm0 + bMargin img.h img.w) (img.w - 1) -
            (xMin pm0 - bMargin img.h img.w) →
      ((∀ y x, y < img.h → x < img.w → pm0.pix y x = true →
          (baseFillMaskOf cfg preds img (some pm0)).pix y x = true) ∧
       (∀ y x, y < (basePriorStage img (some pm0)).working.h →
               x < (basePriorStage img (some pm0)).working.w →
          (baseDetWorkingOf cfg preds img (some pm0)).pix y x = true →
          (baseFillMaskOf cfg preds img (some pm0)).pix
            ((yMin pm0 - bMargin img.h img.w) + y)
            ((xMin pm0 - bMargin img.h img.w) + x) = true) ∧
       (maskAny (baseCombinedOf cfg preds img (some pm0)) = true →
          (baseRun cfg cb (some preds) img (some pm0)).fillCall =
            some (img, baseFillMaskOf cfg preds img (some pm0)))))
  ∧ (∀ (cfg : BConfig) (cb : Collab) (preds : Preds) (img : Frame) (pm0 : Mask),
      pm0.h = img.h → pm0.w = img.w → maskAny pm0 = true →
      ¬(2 < min (yMax pm0 + bMargin img.h img.w) (img.h - 1) -
            (yMin pm0 - bMargin img.h img.w) ∧
        2 < min (xMax pm0 + bMargin img.h img.w) (img.w - 1) -
            (xMin pm0 - bMargin img.h img.w)) →
      maskAny (baseCombinedOf cfg preds img (some pm0)) = true →
      (baseRun cfg cb (some preds) img (some pm0)).fillCall = some (img, pm0)) := by
  refine ⟨?_, ?_, ?_, ?_, ?_⟩
  · intro cfg cb res st img y x hker hsym hy hx hpix
    exact postprocess_superset hker hsym hy hx hpix
  · intro g h w m y x hy hx hp
    exact roiBounds_contains hy hx hp
  · intro cfg cb preds img hcomb
    unfold baseCombinedOf baseDimsOf at hcomb
    unfold baseRun
    dsimp only
    rw [if_neg (by simp [hcomb])]
    rfl
  · intro cfg cb preds img pm0 hh hw hany hdy hdx
    have hps := basePriorStage_crop hh hw hany ⟨hdy, hdx⟩
    have hh1 : 1 ≤ img.h := by
      obtain ⟨p, hp⟩ := maskAny_iff.mp hany
      have hb := mem_fgL.mp hp
      omega
    have hw1 : 1 ≤ img.w := by
      obtain ⟨p, hp⟩ := maskAny_iff.mp hany
      have hb := mem_fgL.mp hp
      omega
    have hwin : ∀ y x, y < img.h → x < img.w → pm0.pix y x = true →
        yMin pm0 - bMargin img.h img.w ≤ y ∧
        y < min (yMax pm0 + bMargin img.h img.w) (img.h - 1) + 1 ∧
        xMin pm0 - bMargin img.h img.w ≤ x ∧
        x < min (xMax pm0 + bMargin img.h img.w) (img.w - 1) + 1 := by
      intro y x hy hx hpix
      have hmem : (y, x) ∈ fgL pm0 := mem_fgL.mpr ⟨by omega, by omega, hpix⟩
      have h1 := yMin_le hmem
      have h2 := le_yMax hmem
      have h3 := xMin_le hmem
      have h4 := le_xMax hmem
      simp only at h1 h2 h3 h4
      exact ⟨by omega, by omega, by omega, by omega⟩
    refine ⟨?_, ?_, ?_⟩
    · intro y x hy hx hpix
      unfold baseFillMaskOf baseCombinedOf baseDimsOf
      rw [hps]
      exact (baseMaskAssembly_crop_superset img pm0 _ _ _ _ _ _ _ hh hw
        (buildCombined_dims _ _ _ _).1 (buildCombined_dims _ _ _ _).2 hwin
        (by omega) (by omega)).1 y x hy hx hpix
    · intro y x hy hx hpix
      unfold baseDetWorkingOf baseCombinedOf baseDimsOf at hpix
      unfold baseFillMaskOf baseCombinedOf baseDimsOf
      rw [hps] at hy hx hpix ⊢
      exact (baseMaskAssembly_crop_superset img pm0 _ _ _ _ _ _ _ hh hw
        (buildCombined_dims _ _ _ _).1 (buildCombined_dims _ _ _ _).2 hwin
        (by omega) (by omega)).2 y x hy hx hpix
    · intro hcomb
      unfold baseCombinedOf baseDimsOf at hcomb
      unfold baseRun
      dsimp only
      rw [if_neg (by simp [hcomb])]
      unfold baseFillMaskOf baseCombinedOf baseDimsOf
      rfl
  · intro cfg cb preds img pm0 hh hw hany hcnd hcomb
    have hps := basePriorStage_nocrop hh hw hany hcnd
    unfold baseCombinedOf baseDimsOf at hcomb
    unfold baseRun
    dsimp only
    rw [if_neg (by simp [hcomb])]
    rw [hps]
    unfold baseMaskAssembly
    dsimp only
    rw [if_neg (not_ne_iff.mpr rfl)]

/-- C2 amended witness: a concrete stable run — the single-pixel detected
mask survives the (disabled) filter and reaches the fill mask. -/
theorem c2_fill_mask_superset_witness :
    (stableRun c1cfg idFill (some c1preds) ⟨none, 0⟩ c1img).inpaintMaskDbg.pix 0 0 = true :=
  c2_fill_mask_superset.1 c1cfg idFill (some c1preds) ⟨none, 0⟩ c1img 0 0
    (by decide) (by decide) (by decide) (by decide) (by decide)

/-- Two disjoint 8-connected components on a 10x13 grid: a 10x10 block of
100 pixels (columns 0-9) and a 10-pixel strip in column 12, separated by
two empty columns. -/
def c9m : Mask := ⟨10, 13, fun y x => decide (y < 10 ∧ (x < 10 ∨ x = 12))⟩

set_option maxRecDepth 100000 in
/-- C9: the small-component filter keeps exactly the in-bounds foreground
pixels whose 8-connected component (reflexive-transitive 8-neighbour
reachability inside the foreground) has at least min_area pixels; on the
concrete two-component mask with min_area = 50, a pixel of the 100-pixel
block survives while pixels of the 10-pixel strip — though foreground —
and background pixels do not. -/
theorem c9_small_component_removal :
    (∀ (m : Mask) (a : Int) (y x : Nat), y < m.h → x < m.w →
      ((filterSmallComponents m a).pix y x = true ↔
        (m.pix y x = true ∧ a ≤ ((Set.ncard {q | Reach m (y, x) q} : Nat) : Int))))
  ∧ ((filterSmallComponents c9m 50).pix 4 4 = true ∧
     (filterSmallComponents c9m 50).pix 5 12 = false ∧
     (filterSmallComponents c9m 50).pix 0 11 = false ∧
     c9m.pix 5 12 = true) := by
  constructor
  · intro m a y x hy hx
    exact filterSmall_char hy hx
  · exact ⟨by decide, by decide, by decide, by decide⟩

set_option maxRecDepth 100000 in
/-- C9 witness: the characterisation applied to the block pixel (4,4) of
the concrete mask, bounds discharged concretely. -/
theorem c9_small_component_removal_witness :
    ((4 : Nat) < c9m.h ∧ (4 : Nat) < c9m.w) ∧
    ((filterSmallComponents c9m 50).pix 4 4 = true ↔
      (c9m.pix 4 4 = true ∧
        (50 : Int) ≤ ((Set.ncard {q | Reach c9m (4, 4) q} : Nat) : Int))) :=
  ⟨⟨by decide, by decide⟩, c9_small_component_removal.1 c9m 50 4 4 (by decide) (by decide)⟩

/-- C5: in RTMDetInpainter.inpaint, when the detector result is falsy or no
detection survives the label and score filters (empty combined mask), a
surviving non-empty hint mask becomes the sole fill mask, and with no (or
an empty) hint the input frame is returned untouched; the second and third
conjuncts identify the surviving hint of the preamble: a frame-shaped
non-empty hint survives as itself, an empty one is discarded. -/
theorem c5_empty_detection_fallback :
    (∀ (cfg : BConfig) (cb : Collab) (img : Frame) (priorIn : Option Mask)
        (res : Option Preds) (out : BOut),
      baseInpaint cfg cb (.ok res) img priorIn = .ok out →
      (res = none ∨
        ∃ preds, res = some preds ∧
          maskAny (buildCombinedMask cfg preds
            (baseInferDims cfg img.h img.w (basePriorStage img priorIn)).2
            (baseInferDims cfg img.h img.w (basePriorStage img priorIn)).1) = false) →
      ((∀ p, (basePriorStage img priorIn).prior = some p →
          out.repaired = cb.fill img p ∧ out.fillCall = some (img, p)) ∧
       ((basePriorStage img priorIn).prior = none →
          out.repaired = img ∧ out.fillCall = none)))
  ∧ (∀ (img : Frame) (pm0 : Mask), pm0.h = img.h → pm0.w = img.w →
      ((maskAny pm0 = true → (basePriorStage img (some pm0)).prior = some pm0) ∧
       (maskAny pm0 = false → (basePriorStage img (some pm0)).prior = none)))
  ∧ (∀ (img : Frame), (basePriorStage img none).prior = none) := by
  refine ⟨?_, ?_, ?_⟩
  · intro cfg cb img priorIn res out hok hdisj
    obtain ⟨hc, res', hres', hout⟩ := baseInpaint_ok_iff.mp hok
    have hres2 : res' = res := by
      injection hres' with h
      exact h.symm
    subst hres2
    subst hout
    unfold baseRun
    dsimp only
    cases res' with
    | none =>
      constructor
      · intro p hp
        rw [hp]
        exact ⟨rfl, rfl⟩
      · intro hp
        rw [hp]
        exact ⟨rfl, rfl⟩
    | some preds =>
      rcases hdisj with h | ⟨preds', heq, hempty⟩
      · exact absurd h (by simp)
      · have hpe : preds' = preds := by
          injection heq with h
          exact h.symm
        subst hpe
        dsimp only
        rw [if_pos hempty]
        constructor
        · intro p hp
          rw [hp]
          exact ⟨rfl, rfl⟩
        · intro hp
          rw [hp]
          exact ⟨rfl, rfl⟩
  · intro img pm0 hh hw
    unfold basePriorStage
    dsimp only
    have hsh : (if (pm0.h, pm0.w) ≠ (img.h, img.w)
        then resizeMask pm0 img.w img.h else pm0) = pm0 :=
      if_neg (by simp [hh, hw])
    rw [hsh]
    constructor
    · intro hany
      rw [if_pos hany]
      split
      · rfl
      · rfl
    · intro hany
      rw [if_neg (by simp [hany])]
  · intro img
    rfl

/-- A 1x2 hint mask whose only set pixel is (0,1), frame-shaped for c1img. -/
def c5hint : Mask := ⟨1, 2, fun y x => decide (y = 0 ∧ x = 1)⟩

/-- C5 witness: a falsy detector result with a surviving non-empty hint
makes the fill run on the hint alone. -/
theorem c5_empty_detection_fallback_witness :
    (baseRun ⟨[], [], 0, none⟩ idFill none c1img (some c5hint)).repaired =
      idFill.fill c1img c5hint ∧
    (baseRun ⟨[], [], 0, none⟩ idFill none c1img (some c5hint)).fillCall =
      some (c1img, c5hint) :=
  ((c5_empty_detection_fallback.1 ⟨[], [], 0, none⟩ idFill c1img (some c5hint) none
      (baseRun ⟨[], [], 0, none⟩ idFill none c1img (some c5hint)) rfl
      (Or.inl rfl)).1 c5hint rfl)

/-- C10: the output and post-state of RTMDetInpainterStable.inpaint do not
depend on the prior_mask argument, and the RTMDet-only session handler does
not depend on the mask payload it reads and discards. -/
theorem c10_hint_mask_independence :
    (∀ (cfg : SConfig) (cb : Collab) (detRes : Except Unit (Option Preds))
        (st : StabState) (img : Frame) (p1 p2 : Option Mask),
      stableInpaint cfg cb detRes st img p1 = stableInpaint cfg cb detRes st img p2)
  ∧ (∀ (cfg : SConfig) (cb : Collab) (codec : Codec)
        (detRes : Except Unit (Option Preds)) (st : StabState)
        (imgBytes mb1 mb2 : List Nat),
      rtmHandleFrame cfg cb codec detRes st imgBytes mb1 =
        rtmHandleFrame cfg cb codec detRes st imgBytes mb2) :=
  ⟨fun _ _ _ _ _ _ _ => rfl, fun _ _ _ _ _ _ _ _ => rfl⟩

end HandRedir
